import Mathlib

/-!
Verification of the voice-capture / transcription system against its design
documentation.  The Python source is shallowly embedded: pure functions become
Lean functions over `Nat`/`ℚ`/`ℝ`/`String`, external collaborators (speech
recognition, text generation) become oracle parameters, and the mutable
session object becomes explicit state passing.
-/

set_option maxHeartbeats 1000000
set_option maxRecDepth 8000

/-! ### `_merge_speaker_segments` (localwhispr/server.py)

A transcript segment produced by the recognizer is a tuple
`(start, end, text)`; a tagged segment is `(start, speaker, text)`.
Timestamps are embedded as rationals (the Python code only compares them). -/

abbrev Tagged : Type := ℚ × String × String

/-- Tagging step of `_merge_speaker_segments`: mic segments get label
`"[Eu]"`, monitor segments get label `"[Outro]"`, mic first. -/
def tag_segments (mic monitor : List (ℚ × ℚ × String)) : List Tagged :=
  mic.map (fun s => (s.1, "[Eu]", s.2.2)) ++ monitor.map (fun s => (s.1, "[Outro]", s.2.2))

/-- Comparison used by `tagged.sort(key=lambda x: x[0])`. -/
def startLE (a b : Tagged) : Prop := a.1 ≤ b.1

instance : DecidableRel startLE := fun a b => inferInstanceAs (Decidable (a.1 ≤ b.1))

instance : IsTotal Tagged startLE := ⟨fun a b => le_total a.1 b.1⟩

instance : IsTrans Tagged startLE := ⟨fun _ _ _ h1 h2 => le_trans h1 h2⟩

/-- Python's `list.sort` is stable; it is embedded as (stable) insertion
sort on the start timestamp. -/
def sort_by_start (l : List Tagged) : List Tagged := List.insertionSort startLE l

/-- `f"{current_speaker} {' '.join(current_texts)}"` -/
def make_paragraph (speaker : String) (texts : List String) : String :=
  speaker ++ " " ++ String.intercalate " " texts

/-- The grouping loop of `_merge_speaker_segments`, with the mutable
`current_speaker` / `current_texts` / `parts` state passed explicitly.
The final flush (`if current_texts: parts.append(...)`) is the `[]` case. -/
def group_loop : List Tagged → String → List String → List String → List String
  | [], cur, texts, parts =>
      if texts.isEmpty then parts else parts ++ [make_paragraph cur texts]
  | (_, speaker, text) :: rest, cur, texts, parts =>
      if speaker ≠ cur then
        group_loop rest speaker [text]
          (if texts.isEmpty then parts else parts ++ [make_paragraph cur texts])
      else
        group_loop rest cur (texts ++ [text]) parts

/-- `_merge_speaker_segments` itself: tag, stable-sort by start, group
consecutive same-speaker segments, join paragraphs with newlines. -/
def merge_speaker_segments (mic monitor : List (ℚ × ℚ × String)) : String :=
  String.intercalate "\n" (group_loop (sort_by_start (tag_segments mic monitor)) "" [] [])

/-! Specification-side view of the grouping: the list of maximal runs of
consecutive segments sharing a speaker label. -/

/-- Maximal-run chunking of a tagged list, accumulating the current run. -/
def spec_runs_go (sp : String) (texts : List String) : List Tagged → List (String × List String)
  | [] => [(sp, texts)]
  | (_, s, t) :: rest =>
      if s = sp then spec_runs_go sp (texts ++ [t]) rest
      else (sp, texts) :: spec_runs_go s [t] rest

/-- The maximal runs of consecutive same-speaker segments of a tagged list. -/
def spec_runs : List Tagged → List (String × List String)
  | [] => []
  | (_, s, t) :: rest => spec_runs_go s [t] rest

/-- One paragraph per maximal run, as described by the spec. -/
def spec_paragraphs (l : List Tagged) : List String :=
  (spec_runs l).map (fun r => make_paragraph r.1 r.2)

lemma group_loop_eq_runs (l : List Tagged) : ∀ (sp : String) (texts parts : List String),
    texts ≠ [] →
    group_loop l sp texts parts
      = parts ++ (spec_runs_go sp texts l).map (fun r => make_paragraph r.1 r.2) := by
  induction l with
  | nil =>
      intro sp texts parts ht
      simp [group_loop, spec_runs_go, List.isEmpty_iff, ht]
  | cons x rest ih =>
      intro sp texts parts ht
      obtain ⟨q, s, t⟩ := x
      by_cases hs : s = sp
      · subst hs
        simp only [group_loop, spec_runs_go, if_pos rfl, ite_not, if_true, ite_true]
        exact ih s (texts ++ [t]) parts (by simp)
      · simp only [group_loop, spec_runs_go, if_neg hs, ite_not]
        rw [if_neg (by simpa [List.isEmpty_iff] using ht)]
        rw [ih s [t] _ (by simp)]
        simp [List.append_assoc]

lemma speaker_mem_tag_segments {mic monitor : List (ℚ × ℚ × String)} {x : Tagged}
    (hx : x ∈ tag_segments mic monitor) : x.2.1 = "[Eu]" ∨ x.2.1 = "[Outro]" := by
  rcases List.mem_append.mp hx with h | h
  · obtain ⟨s, _, rfl⟩ := List.mem_map.mp h
    exact Or.inl rfl
  · obtain ⟨s, _, rfl⟩ := List.mem_map.mp h
    exact Or.inr rfl

lemma merge_eq_spec_paragraphs (mic monitor : List (ℚ × ℚ × String)) :
    merge_speaker_segments mic monitor
      = String.intercalate "\n" (spec_paragraphs (sort_by_start (tag_segments mic monitor))) := by
  unfold merge_speaker_segments spec_paragraphs
  congr 1
  have hne : ∀ x ∈ sort_by_start (tag_segments mic monitor), x.2.1 ≠ "" := by
    intro x hx
    have hx' : x ∈ tag_segments mic monitor :=
      (List.perm_insertionSort startLE _).mem_iff.mp hx
    rcases speaker_mem_tag_segments hx' with h | h <;> simp [h]
  cases hsorted : sort_by_start (tag_segments mic monitor) with
  | nil => simp [group_loop, spec_runs]
  | cons x rest =>
      obtain ⟨q, s, t⟩ := x
      have hs : s ≠ "" := by
        have := hne (q, s, t) (by rw [hsorted]; exact List.mem_cons_self _ _)
        simpa using this
      simp only [group_loop, spec_runs]
      rw [if_pos (by simpa using hs)]
      simpa using group_loop_eq_runs rest s [t] [] (by simp)

lemma runs_of_constant_speaker (l : List Tagged) : ∀ (sp : String) (texts : List String),
    (∀ x ∈ l, x.2.1 = sp) →
    spec_runs_go sp texts l = [(sp, texts ++ l.map (fun x => x.2.2))] := by
  induction l with
  | nil => intro sp texts _; simp [spec_runs_go]
  | cons x rest ih =>
      intro sp texts hall
      obtain ⟨q, s, t⟩ := x
      have hs : s = sp := by simpa using hall (q, s, t) (List.mem_cons_self _ _)
      subst hs
      simp only [spec_runs_go, if_pos rfl]
      rw [ih s (texts ++ [t]) (fun x hx => hall x (List.mem_cons_of_mem _ hx))]
      simp

/-- **C1.** `_merge_speaker_segments` tags each segment with its source
label, concatenates both lists, stable-sorts by start time (ties
primary-before-secondary), groups every maximal run of consecutive
same-speaker segments into one `"<label> <joined text>"` paragraph, and
joins the paragraphs with newlines.  Conjuncts: (1) the output is exactly
the newline-joined paragraphs of the maximal same-speaker runs of the
sorted tagged list; (2) the sorted list is ordered by start time; (3) it is
a permutation of the tagged concatenation (mic first); (4) stability: a
mic (primary) segment and a monitor (secondary) segment with equal start
times appear primary-before-secondary in the sorted list; (5) the concrete
instance: primary segments at t=0 and t=5 and secondary segments at t=2
and t=3 produce primary(0), then secondary(2,3) as one paragraph, then
primary(5). -/
theorem merge_speaker_segments_correct :
    (∀ mic monitor : List (ℚ × ℚ × String),
      merge_speaker_segments mic monitor
        = String.intercalate "\n" (spec_paragraphs (sort_by_start (tag_segments mic monitor))))
    ∧ (∀ l : List Tagged, (sort_by_start l).Sorted startLE)
    ∧ (∀ l : List Tagged, List.Perm (sort_by_start l) l)
    ∧ (∀ (mic monitor : List (ℚ × ℚ × String)) (a b : Tagged),
        a ∈ mic.map (fun s => ((s.1, "[Eu]", s.2.2) : Tagged)) →
        b ∈ monitor.map (fun s => ((s.1, "[Outro]", s.2.2) : Tagged)) →
        a.1 = b.1 →
        List.Sublist [a, b] (sort_by_start (tag_segments mic monitor)))
    ∧ merge_speaker_segments [(0, 1, "A"), (5, 6, "D")] [(2, 3, "B"), (3, 4, "C")]
        = "[Eu] A\n[Outro] B C\n[Eu] D" := by
  refine ⟨merge_eq_spec_paragraphs, ?_, ?_, ?_, by decide⟩
  · intro l; exact List.sorted_insertionSort startLE l
  · intro l; exact List.perm_insertionSort startLE l
  · intro mic monitor a b ha hb hab
    have hsub : List.Sublist [a, b] (tag_segments mic monitor) := by
      have h1 : List.Sublist [a] (mic.map (fun s => ((s.1, "[Eu]", s.2.2) : Tagged))) :=
        List.singleton_sublist.mpr ha
      have h2 : List.Sublist [b] (monitor.map (fun s => ((s.1, "[Outro]", s.2.2) : Tagged))) :=
        List.singleton_sublist.mpr hb
      exact List.Sublist.append h1 h2
    exact List.pair_sublist_insertionSort (le_of_eq hab) hsub

/-- Witness for `merge_speaker_segments_correct`: instantiating the
stability conjunct at two concrete equal-start segments. -/
theorem merge_speaker_segments_correct_witness :
    List.Sublist [((0 : ℚ), "[Eu]", "A"), ((0 : ℚ), "[Outro]", "B")]
      (sort_by_start (tag_segments [(0, 1, "A")] [(0, 1, "B")])) :=
  merge_speaker_segments_correct.2.2.2.1 [(0, 1, "A")] [(0, 1, "B")]
    ((0 : ℚ), "[Eu]", "A") ((0 : ℚ), "[Outro]", "B")
    (by decide) (by decide) (by decide)

/-- **C10.** When both segment lists are empty, `_merge_speaker_segments`
returns the empty string (zero paragraphs); when exactly one list is
nonempty, the output is exactly that list's paragraphs — a single
paragraph holding all of its texts in start order under its own label. -/
theorem merge_speaker_segments_empty_cases :
    merge_speaker_segments [] [] = ""
    ∧ (∀ mic : List (ℚ × ℚ × String), mic ≠ [] →
        merge_speaker_segments mic []
          = "[Eu] " ++ String.intercalate " "
              ((sort_by_start (tag_segments mic [])).map (fun x => x.2.2)))
    ∧ (∀ monitor : List (ℚ × ℚ × String), monitor ≠ [] →
        merge_speaker_segments [] monitor
          = "[Outro] " ++ String.intercalate " "
              ((sort_by_start (tag_segments [] monitor)).map (fun x => x.2.2))) := by
  refine ⟨by decide, ?_, ?_⟩
  · intro mic hmic
    rw [merge_eq_spec_paragraphs]
    have hall : ∀ x ∈ sort_by_start (tag_segments mic []), x.2.1 = "[Eu]" := by
      intro x hx
      have hx' : x ∈ tag_segments mic [] :=
        (List.perm_insertionSort startLE _).mem_iff.mp hx
      rcases List.mem_append.mp hx' with h | h
      · obtain ⟨s, _, rfl⟩ := List.mem_map.mp h; rfl
      · simp at h
    have hlen : sort_by_start (tag_segments mic []) ≠ [] := by
      intro h
      have := (List.perm_insertionSort startLE (tag_segments mic [])).length_eq
      simp only [sort_by_start] at h
      rw [h] at this
      simp [tag_segments] at this
      exact hmic (List.eq_nil_of_length_eq_zero this.symm)
    cases hsorted : sort_by_start (tag_segments mic []) with
    | nil => exact absurd hsorted hlen
    | cons x rest =>
        obtain ⟨q, s, t⟩ := x
        have hs : s = "[Eu]" := by
          simpa using hall (q, s, t) (by rw [hsorted]; exact List.mem_cons_self _ _)
        subst hs
        have hrest : ∀ x ∈ rest, x.2.1 = "[Eu]" := by
          intro x hx
          exact hall x (by rw [hsorted]; exact List.mem_cons_of_mem _ hx)
        simp only [spec_paragraphs, spec_runs]
        rw [runs_of_constant_speaker rest "[Eu]" [t] hrest]
        simp only [List.map_cons, List.map_nil, make_paragraph, String.intercalate]
        rfl
  · intro monitor hmon
    rw [merge_eq_spec_paragraphs]
    have hall : ∀ x ∈ sort_by_start (tag_segments [] monitor), x.2.1 = "[Outro]" := by
      intro x hx
      have hx' : x ∈ tag_segments [] monitor :=
        (List.perm_insertionSort startLE _).mem_iff.mp hx
      rcases List.mem_append.mp hx' with h | h
      · simp at h
      · obtain ⟨s, _, rfl⟩ := List.mem_map.mp h; rfl
    have hlen : sort_by_start (tag_segments [] monitor) ≠ [] := by
      intro h
      have := (List.perm_insertionSort startLE (tag_segments [] monitor)).length_eq
      simp only [sort_by_start] at h
      rw [h] at this
      simp [tag_segments] at this
      exact hmon (List.eq_nil_of_length_eq_zero this.symm)
    cases hsorted : sort_by_start (tag_segments [] monitor) with
    | nil => exact absurd hsorted hlen
    | cons x rest =>
        obtain ⟨q, s, t⟩ := x
        have hs : s = "[Outro]" := by
          simpa using hall (q, s, t) (by rw [hsorted]; exact List.mem_cons_self _ _)
        subst hs
        have hrest : ∀ x ∈ rest, x.2.1 = "[Outro]" := by
          intro x hx
          exact hall x (by rw [hsorted]; exact List.mem_cons_of_mem _ hx)
        simp only [spec_paragraphs, spec_runs]
        rw [runs_of_constant_speaker rest "[Outro]" [t] hrest]
        simp only [List.map_cons, List.map_nil, make_paragraph, String.intercalate]
        rfl

/-- Witness for `merge_speaker_segments_empty_cases`: the one-sided case at a
concrete two-segment list. -/
theorem merge_speaker_segments_empty_cases_witness :
    merge_speaker_segments [((3 : ℚ), 4, "B"), ((1 : ℚ), 2, "A")] []
      = "[Eu] " ++ String.intercalate " "
          ((sort_by_start (tag_segments [((3 : ℚ), 4, "B"), ((1 : ℚ), 2, "A")] [])).map
            (fun x => x.2.2)) :=
  merge_speaker_segments_empty_cases.2.1 [((3 : ℚ), 4, "B"), ((1 : ℚ), 2, "A")] (by decide)

/-! ### `WavTailMonitor._parse_header` (localwhispr/audio_monitor.py)

Files are byte lists (`List Nat`, each entry < 256 where it matters).
`_parse_header` reads the first 128 bytes (`f.read(128)`), checks the
RIFF/WAVE magic, then walks the chunk list; `struct.unpack_from` reads are
little-endian and are guarded by the position checks, so out-of-range
reads (modelled with default 0) never occur on executed paths. -/

/-- `header[i]` with default `0` (all real reads are bounds-guarded). -/
def readByte (h : List Nat) (i : Nat) : Nat := h.getD i 0

/-- Little-endian 16-bit read, as in `struct.unpack_from("<H", ...)`. -/
def readU16 (h : List Nat) (i : Nat) : Nat := readByte h i + 256 * readByte h (i + 1)

/-- Little-endian 32-bit read, as in `struct.unpack_from("<I", ...)`. -/
def readU32 (h : List Nat) (i : Nat) : Nat :=
  readByte h i + 256 * readByte h (i + 1) + 65536 * readByte h (i + 2)
    + 16777216 * readByte h (i + 3)

/-- `header[pos : pos + n]`. -/
def sliceBytes (h : List Nat) (pos n : Nat) : List Nat := (h.drop pos).take n

def riffTag : List Nat := [82, 73, 70, 70]
def waveTag : List Nat := [87, 65, 86, 69]
def fmtTag : List Nat := [102, 109, 116, 32]
def dataTag : List Nat := [100, 97, 116, 97]

/-- `pos += 8 + chunk_size`, plus the RIFF word-alignment pad byte. -/
def nextChunkPos (pos csize : Nat) : Nat :=
  pos + 8 + csize + (if csize % 2 = 1 then 1 else 0)

/-- The `while pos + 8 <= len(header)` loop of `_parse_header`, carrying the
accumulated channel count / sample rate / sample width.  Each iteration
advances `pos` by at least 8 inside a ≤128-byte window, so at most 16
iterations can ever run; `fuel = 16` therefore never changes behaviour and
keeps the recursion structural.  Returns `some (channels, rate, dataOffset)`
for the `True` outcome and `none` for `False`. -/
def parseLoop (header : List Nat) : Nat → Nat → Nat → Nat → Nat → Option (Nat × Nat × Nat)
  | 0, _, _, _, _ => none
  | fuel + 1, pos, ch, rate, sw =>
    if pos + 8 ≤ header.length then
      if sliceBytes header pos 4 = fmtTag then
        if header.length < pos + 8 + 16 then none
        else
          parseLoop header fuel (nextChunkPos pos (readU32 header (pos + 4)))
            (readU16 header (pos + 10)) (readU32 header (pos + 12))
            (readU16 header (pos + 22) / 8)
      else if sliceBytes header pos 4 = dataTag then
        if ch ≠ 0 ∧ sw ≠ 0 then some (ch, rate, pos + 8) else none
      else
        parseLoop header fuel (nextChunkPos pos (readU32 header (pos + 4))) ch rate sw
    else none

/-- `_parse_header` on the byte content of the file: truncate to 128 bytes,
check the RIFF/WAVE magic, walk the chunks from position 12. -/
def parse_header (file : List Nat) : Option (Nat × Nat × Nat) :=
  if (file.take 128).length < 44 then none
  else if sliceBytes (file.take 128) 0 4 ≠ riffTag then none
  else if sliceBytes (file.take 128) 8 4 ≠ waveTag then none
  else parseLoop (file.take 128) 16 12 0 0 0

/-! Builder for valid RIFF/WAVE headers, used to quantify over them. -/

/-- Little-endian 16-bit encoding. -/
def u16le (n : Nat) : List Nat := [n % 256, n / 256 % 256]

/-- Little-endian 32-bit encoding. -/
def u32le (n : Nat) : List Nat :=
  [n % 256, n / 256 % 256, n / 65536 % 256, n / 16777216 % 256]

/-- A RIFF chunk: 4-byte id, little-endian size, payload, pad byte if the
payload length is odd (word alignment). -/
def encodeChunk (c : List Nat × List Nat) : List Nat :=
  c.1 ++ u32le c.2.length ++ c.2 ++ (if c.2.length % 2 = 1 then [0] else [])

/-- The 16-byte PCM `fmt ` payload. -/
def fmtPayload (audioFormat ch rate byteRate blockAlign bits : Nat) : List Nat :=
  u16le audioFormat ++ u16le ch ++ u32le rate ++ u32le byteRate
    ++ u16le blockAlign ++ u16le bits

/-- A canonical RIFF/WAVE file: `RIFF` header, `fmt ` chunk, arbitrary
extra chunks, then the `data` chunk. -/
def mkWav (audioFormat ch rate byteRate blockAlign bits riffSize : Nat)
    (extras : List (List Nat × List Nat)) (dataBytes : List Nat) : List Nat :=
  riffTag ++ u32le riffSize ++ waveTag
    ++ fmtTag ++ u32le 16 ++ fmtPayload audioFormat ch rate byteRate blockAlign bits
    ++ (extras.map encodeChunk).flatten
    ++ dataTag ++ u32le dataBytes.length ++ dataBytes

/-- Well-formedness of an unknown intervening chunk: a 4-byte id distinct
from `fmt ` and `data`, and a payload whose length fits in 32 bits. -/
def ChunkWF (c : List Nat × List Nat) : Prop :=
  c.1.length = 4 ∧ c.1 ≠ fmtTag ∧ c.1 ≠ dataTag ∧ c.2.length < 4294967296

instance (c : List Nat × List Nat) : Decidable (ChunkWF c) :=
  inferInstanceAs (Decidable (_ ∧ _ ∧ _ ∧ _))

lemma readByte_of_drop {F : List Nat} {i x : Nat} {rest : List Nat}
    (h : F.drop i = x :: rest) : readByte F i = x := by
  have h0 := List.getElem?_drop F i 0
  rw [h] at h0
  simp only [List.getElem?_cons_zero, Nat.add_zero] at h0
  simp [readByte, List.getD_eq_getElem?_getD, ← h0]

lemma drop_succ_of_drop {F : List Nat} {i x : Nat} {rest : List Nat}
    (h : F.drop i = x :: rest) : F.drop (i + 1) = rest := by
  have : F.drop (i + 1) = (F.drop i).drop 1 := by
    rw [List.drop_drop]
  rw [this, h]
  rfl

lemma readU16_of_drop {F : List Nat} {i n : Nat} {rest : List Nat}
    (h : F.drop i = u16le n ++ rest) (hn : n < 65536) : readU16 F i = n := by
  simp only [u16le, List.cons_append, List.nil_append] at h
  have h0 := readByte_of_drop h
  have h1 := readByte_of_drop (drop_succ_of_drop h)
  simp only [readU16, h0, h1]
  omega

lemma readU32_of_drop {F : List Nat} {i n : Nat} {rest : List Nat}
    (h : F.drop i = u32le n ++ rest) (hn : n < 4294967296) : readU32 F i = n := by
  simp only [u32le, List.cons_append, List.nil_append] at h
  have h0 := readByte_of_drop h
  have h1 := readByte_of_drop (drop_succ_of_drop h)
  have h2 := readByte_of_drop (drop_succ_of_drop (drop_succ_of_drop h))
  have h3 := readByte_of_drop (drop_succ_of_drop (drop_succ_of_drop (drop_succ_of_drop h)))
  simp only [readU32, h0, h1, h2, h3]
  omega

lemma slice4_of_drop {F : List Nat} {i : Nat} {c rest : List Nat}
    (h : F.drop i = c ++ rest) (hc : c.length = 4) : sliceBytes F i 4 = c := by
  rw [sliceBytes, h, ← hc, List.take_left]

lemma readByte_take {F : List Nat} {m i : Nat} (h : i < m) :
    readByte (F.take m) i = readByte F i := by
  simp [readByte, List.getD_eq_getElem?_getD, List.getElem?_take_of_lt h]

lemma readU16_take {F : List Nat} {m i : Nat} (h : i + 2 ≤ m) :
    readU16 (F.take m) i = readU16 F i := by
  simp [readU16, readByte_take (by omega : i < m), readByte_take (by omega : i + 1 < m)]

lemma readU32_take {F : List Nat} {m i : Nat} (h : i + 4 ≤ m) :
    readU32 (F.take m) i = readU32 F i := by
  simp [readU32, readByte_take (by omega : i < m), readByte_take (by omega : i + 1 < m),
    readByte_take (by omega : i + 2 < m), readByte_take (by omega : i + 3 < m)]

lemma slice4_take {F : List Nat} {m pos : Nat} (h : pos + 4 ≤ m) :
    sliceBytes (F.take m) pos 4 = sliceBytes F pos 4 := by
  simp only [sliceBytes, List.drop_take, List.take_take]
  congr 1
  omega

lemma encodeChunk_length_ge {c : List Nat × List Nat} (h : ChunkWF c) :
    8 ≤ (encodeChunk c).length := by
  obtain ⟨h4, _, _, _⟩ := h
  simp [encodeChunk, u32le, h4]
  split <;> simp <;> omega

lemma encodeChunk_length {c : List Nat × List Nat} (h : ChunkWF c) :
    (encodeChunk c).length
      = 8 + c.2.length + (if c.2.length % 2 = 1 then 1 else 0) := by
  obtain ⟨h4, _, _, _⟩ := h
  simp [encodeChunk, u32le, h4]
  split <;> simp <;> omega

lemma parseLoop_data (F : List Nat) :
    ∀ (extras : List (List Nat × List Nat)) (fuel pos ch rate sw : Nat) (tail : List Nat),
    (∀ c ∈ extras, ChunkWF c) →
    F.drop pos = (extras.map encodeChunk).flatten ++ dataTag ++ tail →
    pos + (extras.map encodeChunk).flatten.length + 8 ≤ 128 →
    pos + (extras.map encodeChunk).flatten.length + 8 ≤ F.length →
    extras.length + 1 ≤ fuel →
    ch ≠ 0 → sw ≠ 0 →
    parseLoop (F.take 128) fuel pos ch rate sw
      = some (ch, rate, pos + (extras.map encodeChunk).flatten.length + 8) := by
  intro extras
  induction extras with
  | nil =>
      intro fuel pos ch rate sw tail _ hdrop hfit hlen hfuel hch hsw
      simp only [List.map_nil, List.flatten_nil, List.nil_append, List.length_nil,
        Nat.add_zero] at hdrop hfit hlen ⊢
      obtain ⟨fuel, rfl⟩ : ∃ f, fuel = f + 1 := ⟨fuel - 1, by omega⟩
      have hhl : (F.take 128).length = min 128 F.length := List.length_take 128 F
      have hguard : pos + 8 ≤ (F.take 128).length := by omega
      have hcid : sliceBytes (F.take 128) pos 4 = dataTag := by
        rw [slice4_take (by omega)]
        exact slice4_of_drop hdrop (by simp [dataTag])
      simp only [parseLoop, if_pos hguard, hcid]
      simp [dataTag, fmtTag, hch, hsw]
  | cons c cs ih =>
      intro fuel pos ch rate sw tail hwf hdrop hfit hlen hfuel hch hsw
      have hcwf : ChunkWF c := hwf c (List.mem_cons_self _ _)
      obtain ⟨h4, hnf, hnd, hn32⟩ := hcwf
      have henc : encodeChunk c
          = c.1 ++ (u32le c.2.length
              ++ (c.2 ++ (if c.2.length % 2 = 1 then [0] else []))) := by
        simp [encodeChunk, List.append_assoc]
      simp only [List.map_cons, List.flatten_cons, List.append_assoc] at hdrop
      have hlenc := encodeChunk_length ⟨h4, hnf, hnd, hn32⟩
      have hlens : ((c :: cs).map encodeChunk).flatten.length
          = (encodeChunk c).length + (cs.map encodeChunk).flatten.length := by
        simp
      obtain ⟨fuel, rfl⟩ : ∃ f, fuel = f + 1 := ⟨fuel - 1, by omega⟩
      have hhl : (F.take 128).length = min 128 F.length := List.length_take 128 F
      have hencge : 8 ≤ (encodeChunk c).length := encodeChunk_length_ge ⟨h4, hnf, hnd, hn32⟩
      have hguard : pos + 8 ≤ (F.take 128).length := by
        rw [hlens] at hfit hlen
        omega
      -- the chunk id occupies the four bytes at `pos`
      have hdropc : F.drop pos = encodeChunk c
          ++ ((cs.map encodeChunk).flatten ++ (dataTag ++ tail)) := by
        rw [hdrop]
      have hdropid : F.drop pos = c.1
          ++ ((u32le c.2.length ++ (c.2 ++ (if c.2.length % 2 = 1 then [0] else [])))
              ++ ((cs.map encodeChunk).flatten ++ (dataTag ++ tail))) := by
        rw [hdropc, henc]
        simp [List.append_assoc]
      have hcid : sliceBytes (F.take 128) pos 4 = c.1 := by
        rw [slice4_take (by rw [hlens] at hfit; omega)]
        exact slice4_of_drop hdropid h4
      -- the chunk size occupies the four bytes at `pos + 4`
      have hdrop4 : F.drop (pos + 4) = u32le c.2.length
          ++ ((c.2 ++ (if c.2.length % 2 = 1 then [0] else []))
              ++ ((cs.map encodeChunk).flatten ++ (dataTag ++ tail))) := by
        have : F.drop (pos + 4) = (F.drop pos).drop 4 := by
          rw [List.drop_drop]
        rw [this, hdropc, henc]
        rw [List.drop_append_of_le_length (by simp [h4])]
        rw [List.drop_left' h4]
        simp [List.append_assoc]
      have hcsize : readU32 (F.take 128) (pos + 4) = c.2.length := by
        rw [readU32_take (by rw [hlens] at hfit; omega)]
        exact readU32_of_drop hdrop4 hn32
      have hnext : nextChunkPos pos c.2.length = pos + (encodeChunk c).length := by
        rw [hlenc, nextChunkPos]
        omega
      simp only [parseLoop, if_pos hguard, hcid, hcsize]
      rw [if_neg hnf, if_neg hnd, hnext]
      have hdropnext : F.drop (pos + (encodeChunk c).length)
          = (cs.map encodeChunk).flatten ++ dataTag ++ tail := by
        have : F.drop (pos + (encodeChunk c).length)
            = (F.drop pos).drop (encodeChunk c).length := by
          rw [List.drop_drop]
        rw [this, hdropc, List.drop_left]
        simp [List.append_assoc]
      rw [ih fuel (pos + (encodeChunk c).length) ch rate sw tail
        (fun x hx => hwf x (List.mem_cons_of_mem _ hx)) hdropnext
        (by rw [hlens] at hfit; omega) (by rw [hlens] at hlen; omega)
        (by simp only [List.length_cons] at hfuel; omega) hch hsw]
      simp only [Option.some.injEq, Prod.mk.injEq, hlens]
      exact ⟨trivial, trivial, by omega⟩

lemma length_u16le (n : Nat) : (u16le n).length = 2 := rfl

lemma length_u32le (n : Nat) : (u32le n).length = 4 := rfl

lemma extras_flatten_length_ge (extras : List (List Nat × List Nat))
    (hwf : ∀ c ∈ extras, ChunkWF c) :
    8 * extras.length ≤ (extras.map encodeChunk).flatten.length := by
  induction extras with
  | nil => simp
  | cons c cs ih =>
      have h1 := encodeChunk_length_ge (hwf c (List.mem_cons_self _ _))
      have h2 := ih (fun x hx => hwf x (List.mem_cons_of_mem _ hx))
      simp only [List.map_cons, List.flatten_cons, List.length_append, List.length_cons]
      omega

lemma mkWav_length (audioFormat ch rate byteRate blockAlign bits riffSize : Nat)
    (extras : List (List Nat × List Nat)) (dataBytes : List Nat) :
    (mkWav audioFormat ch rate byteRate blockAlign bits riffSize extras dataBytes).length
      = 44 + (extras.map encodeChunk).flatten.length + dataBytes.length := by
  simp [mkWav, fmtPayload, riffTag, waveTag, fmtTag, dataTag, u16le, u32le]
  omega

lemma parseLoop_fmt_step (header : List Nat) (fuel pos ch rate sw : Nat)
    (hf : fuel ≠ 0)
    (hguard : pos + 8 ≤ header.length)
    (hid : sliceBytes header pos 4 = fmtTag)
    (hroom : ¬ (header.length < pos + 8 + 16)) :
    parseLoop header fuel pos ch rate sw
      = parseLoop header (fuel - 1) (nextChunkPos pos (readU32 header (pos + 4)))
          (readU16 header (pos + 10)) (readU32 header (pos + 12))
          (readU16 header (pos + 22) / 8) := by
  obtain ⟨f, rfl⟩ : ∃ f, fuel = f + 1 := ⟨fuel - 1, by omega⟩
  simp only [parseLoop, if_pos hguard, hid, if_neg hroom, eq_self_iff_true,
    if_true, ite_true, Nat.add_sub_cancel]

/-- **C2 (amended).** `_parse_header` recovers the exact channel count,
sample rate, and data offset of a canonical RIFF/WAVE header with the
`fmt ` chunk before the `data` chunk and arbitrary well-formed unknown
word-aligned chunks in between, provided the `data` chunk header lies
within the 128-byte window the parser reads. -/
theorem parse_header_recovers
    (audioFormat ch rate byteRate blockAlign bits riffSize : Nat)
    (extras : List (List Nat × List Nat)) (dataBytes : List Nat)
    (hch : ch ≠ 0) (hch16 : ch < 65536)
    (hrate : rate < 4294967296)
    (hbits16 : bits < 65536) (hsw : bits / 8 ≠ 0)
    (hwf : ∀ c ∈ extras, ChunkWF c)
    (hfit : 44 + (extras.map encodeChunk).flatten.length ≤ 128) :
    parse_header (mkWav audioFormat ch rate byteRate blockAlign bits riffSize extras dataBytes)
      = some (ch, rate, 44 + (extras.map encodeChunk).flatten.length) := by
  set F := mkWav audioFormat ch rate byteRate blockAlign bits riffSize extras dataBytes with hF
  have hFlen : F.length = 44 + (extras.map encodeChunk).flatten.length + dataBytes.length :=
    mkWav_length audioFormat ch rate byteRate blockAlign bits riffSize extras dataBytes
  have hhl : (F.take 128).length = min 128 F.length := List.length_take 128 F
  have hd0 : F.drop 0 = riffTag ++ (u32le riffSize ++ (waveTag ++ (fmtTag ++ (u32le 16
      ++ (u16le audioFormat ++ (u16le ch ++ (u32le rate ++ (u32le byteRate
      ++ (u16le blockAlign ++ (u16le bits ++ ((extras.map encodeChunk).flatten
      ++ (dataTag ++ (u32le dataBytes.length ++ dataBytes))))))))))))) := by
    simp [hF, mkWav, fmtPayload, List.append_assoc]
  have hsplit : ∀ n : Nat, ∀ pre post : List Nat, pre.length = n →
      F.drop 0 = pre ++ post → F.drop n = post := by
    intro n pre post hpre hdrop
    rw [List.drop_zero] at hdrop
    rw [hdrop]
    exact List.drop_left' hpre
  have hd8 : F.drop 8 = waveTag ++ (fmtTag ++ (u32le 16
      ++ (u16le audioFormat ++ (u16le ch ++ (u32le rate ++ (u32le byteRate
      ++ (u16le blockAlign ++ (u16le bits ++ ((extras.map encodeChunk).flatten
      ++ (dataTag ++ (u32le dataBytes.length ++ dataBytes))))))))))) := by
    refine hsplit 8 (riffTag ++ u32le riffSize) _ (by simp [riffTag, u32le]) ?_
    rw [hd0]; simp [List.append_assoc]
  have hd12 : F.drop 12 = fmtTag ++ (u32le 16
      ++ (u16le audioFormat ++ (u16le ch ++ (u32le rate ++ (u32le byteRate
      ++ (u16le blockAlign ++ (u16le bits ++ ((extras.map encodeChunk).flatten
      ++ (dataTag ++ (u32le dataBytes.length ++ dataBytes)))))))))) := by
    refine hsplit 12 (riffTag ++ (u32le riffSize ++ waveTag)) _
      (by simp [riffTag, waveTag, u32le]) ?_
    rw [hd0]; simp [List.append_assoc]
  have hd16 : F.drop 16 = u32le 16
      ++ (u16le audioFormat ++ (u16le ch ++ (u32le rate ++ (u32le byteRate
      ++ (u16le blockAlign ++ (u16le bits ++ ((extras.map encodeChunk).flatten
      ++ (dataTag ++ (u32le dataBytes.length ++ dataBytes))))))))) := by
    refine hsplit 16 (riffTag ++ (u32le riffSize ++ (waveTag ++ fmtTag))) _
      (by simp [riffTag, waveTag, fmtTag, u32le]) ?_
    rw [hd0]; simp [List.append_assoc]
  have hd22 : F.drop 22 = u16le ch ++ (u32le rate ++ (u32le byteRate
      ++ (u16le blockAlign ++ (u16le bits ++ ((extras.map encodeChunk).flatten
      ++ (dataTag ++ (u32le dataBytes.length ++ dataBytes))))))) := by
    refine hsplit 22
      (riffTag ++ (u32le riffSize ++ (waveTag ++ (fmtTag ++ (u32le 16 ++ u16le audioFormat))))) _
      (by simp [riffTag, waveTag, fmtTag, u32le, u16le]) ?_
    rw [hd0]; simp [List.append_assoc]
  have hd24 : F.drop 24 = u32le rate ++ (u32le byteRate
      ++ (u16le blockAlign ++ (u16le bits ++ ((extras.map encodeChunk).flatten
      ++ (dataTag ++ (u32le dataBytes.length ++ dataBytes)))))) := by
    refine hsplit 24
      (riffTag ++ (u32le riffSize ++ (waveTag ++ (fmtTag ++ (u32le 16
        ++ (u16le audioFormat ++ u16le ch)))))) _
      (by simp [riffTag, waveTag, fmtTag, u32le, u16le]) ?_
    rw [hd0]; simp [List.append_assoc]
  have hd34 : F.drop 34 = u16le bits ++ ((extras.map encodeChunk).flatten
      ++ (dataTag ++ (u32le dataBytes.length ++ dataBytes))) := by
    refine hsplit 34
      (riffTag ++ (u32le riffSize ++ (waveTag ++ (fmtTag ++ (u32le 16
        ++ (u16le audioFormat ++ (u16le ch ++ (u32le rate ++ (u32le byteRate
        ++ u16le blockAlign))))))))) _
      (by simp [riffTag, waveTag, fmtTag, u32le, u16le]) ?_
    rw [hd0]; simp [List.append_assoc]
  have hd36 : F.drop 36 = (extras.map encodeChunk).flatten
      ++ (dataTag ++ (u32le dataBytes.length ++ dataBytes)) := by
    refine hsplit 36
      (riffTag ++ (u32le riffSize ++ (waveTag ++ (fmtTag ++ (u32le 16
        ++ (u16le audioFormat ++ (u16le ch ++ (u32le rate ++ (u32le byteRate
        ++ (u16le blockAlign ++ u16le bits)))))))))) _
      (by simp [riffTag, waveTag, fmtTag, u32le, u16le]) ?_
    rw [hd0]; simp [List.append_assoc]
  -- header preliminaries
  have hnot44 : ¬ (F.take 128).length < 44 := by omega
  have hriff : sliceBytes (F.take 128) 0 4 = riffTag := by
    rw [slice4_take (by omega)]
    exact slice4_of_drop hd0 (by simp [riffTag])
  have hwave : sliceBytes (F.take 128) 8 4 = waveTag := by
    rw [slice4_take (by omega)]
    exact slice4_of_drop hd8 (by simp [waveTag])
  -- first loop iteration: the `fmt ` chunk at position 12
  have hguard1 : 12 + 8 ≤ (F.take 128).length := by omega
  have hfmtid : sliceBytes (F.take 128) 12 4 = fmtTag := by
    rw [slice4_take (by omega)]
    exact slice4_of_drop hd12 (by simp [fmtTag])
  have hfmtsize : readU32 (F.take 128) (12 + 4) = 16 := by
    rw [readU32_take (by omega)]
    exact readU32_of_drop (by simpa using hd16) (by omega)
  have hchread : readU16 (F.take 128) (12 + 10) = ch := by
    rw [readU16_take (by omega)]
    exact readU16_of_drop (by simpa using hd22) hch16
  have hrateread : readU32 (F.take 128) (12 + 12) = rate := by
    rw [readU32_take (by omega)]
    exact readU32_of_drop (by simpa using hd24) hrate
  have hbitsread : readU16 (F.take 128) (12 + 22) = bits := by
    rw [readU16_take (by omega)]
    exact readU16_of_drop (by simpa using hd34) hbits16
  have hfmtlen : ¬ ((F.take 128).length < 12 + 8 + 16) := by omega
  have hfuel : extras.length + 1 ≤ 15 := by
    have := extras_flatten_length_ge extras hwf
    omega
  have hrest := parseLoop_data F extras 15 36 ch rate (bits / 8)
    (u32le dataBytes.length ++ dataBytes) hwf
    (by rw [hd36]; simp [List.append_assoc]) (by omega) (by omega) hfuel hch hsw
  simp only [parse_header, if_neg hnot44, hriff, hwave, ite_not,
    eq_self_iff_true, if_true, ite_true]
  rw [parseLoop_fmt_step (F.take 128) 16 12 0 0 0 (by omega) hguard1 hfmtid hfmtlen]
  rw [hfmtsize, hchread, hrateread, hbitsread]
  have hnp : nextChunkPos 12 16 = 36 := by simp [nextChunkPos]
  rw [hnp, show (16 : Nat) - 1 = 15 from rfl, hrest]
  simp only [Option.some.injEq, Prod.mk.injEq]
  exact ⟨trivial, trivial, by omega⟩

/-- A well-formed unknown chunk (`JUNK`) with a 100-byte payload, pushing the
`data` chunk header past the 128-byte window `_parse_header` reads. -/
def junkChunk : List Nat × List Nat := ([74, 85, 78, 75], List.replicate 100 0)

/-- A valid RIFF/WAVE file with `fmt ` before `data` and one word-aligned
unknown chunk in between, whose `data` chunk starts at byte offset 144. -/
def oversizedWav : List Nat := mkWav 1 1 16000 32000 2 16 148 [junkChunk] [0, 0, 0, 0]

/-- **C2 (counterexample).** The claim fails as stated: `oversizedWav` is a
valid RIFF/WAVE header (built by the same builder, with a well-formed
word-aligned unknown chunk between `fmt ` and `data`), yet `_parse_header`
rejects it — it only examines the first 128 bytes of the file, and the
`data` chunk header starts at offset 144. -/
theorem parse_header_counterexample :
    (∀ c ∈ [junkChunk], ChunkWF c) ∧ parse_header oversizedWav = none := by
  constructor
  · intro c hc
    simp only [List.mem_singleton] at hc
    subst hc
    refine ⟨rfl, by decide, by decide, by simp [junkChunk]⟩
  · decide

/-- Witness for `parse_header_recovers`: a concrete header with one small
`LIST` chunk between `fmt ` and `data` parses to its exact channel count,
sample rate, and data offset. -/
theorem parse_header_recovers_witness :
    parse_header (mkWav 1 1 16000 32000 2 16 62 [([76, 73, 83, 84], [1, 2])] [0, 0, 0, 0])
      = some (1, 16000, 44 + (([([76, 73, 83, 84], [1, 2])]).map encodeChunk).flatten.length) :=
  parse_header_recovers 1 1 16000 32000 2 16 62 [([76, 73, 83, 84], [1, 2])] [0, 0, 0, 0]
    (by decide) (by decide) (by decide) (by decide) (by decide)
    (by decide) (by decide)

/-! ### `transcribe_meeting` (visionflow/meeting_processor.py)

The audio buffer is a sample array; `CHUNK_DURATION_S = 300` and
`chunk_samples = CHUNK_DURATION_S * sample_rate`.  The recognition
collaborator is an oracle mapping a window index to its window-relative
segments `(start, text)`; `np.ceil` on the float quotient is embedded as
exact ceiling division on `Nat`. -/

/-- `n_chunks = max(1, int(np.ceil(len(audio) / chunk_samples)))`. -/
def numChunks (nSamples chunkSamples : Nat) : Nat :=
  max 1 ((nSamples + chunkSamples - 1) / chunkSamples)

/-- Window `i`: `(start_sample, end_sample)` with
`start_sample = i * chunk_samples` and
`end_sample = min((i + 1) * chunk_samples, len(audio))`. -/
def chunkBounds (nSamples chunkSamples i : Nat) : Nat × Nat :=
  (i * chunkSamples, min ((i + 1) * chunkSamples) nSamples)

/-- The per-segment absolute timestamps assembled by the chunk loop:
for each window `i`, every window-relative segment `(s, text)` becomes
`(chunk_start_time + s, text)` with `chunk_start_time = start_sample / sample_rate`. -/
def transcribeAbs (nSamples chunkSamples : Nat) (rate : ℚ)
    (recognize : Nat → List (ℚ × String)) : List (ℚ × String) :=
  (List.range (numChunks nSamples chunkSamples)).flatMap fun i =>
    (recognize i).map fun seg => (((i * chunkSamples : Nat) : ℚ) / rate + seg.1, seg.2)

lemma numChunks_pos_eq (nSamples chunkSamples : Nat)
    (hn : 0 < nSamples) (hc : 0 < chunkSamples) :
    numChunks nSamples chunkSamples = (nSamples + chunkSamples - 1) / chunkSamples := by
  have h1 : 1 ≤ (nSamples + chunkSamples - 1) / chunkSamples := by
    rw [Nat.le_div_iff_mul_le hc]
    omega
  simp [numChunks]
  omega

lemma numChunks_bounds (nSamples chunkSamples : Nat)
    (hn : 0 < nSamples) (hc : 0 < chunkSamples) :
    chunkSamples * (numChunks nSamples chunkSamples - 1) < nSamples
      ∧ nSamples ≤ chunkSamples * numChunks nSamples chunkSamples := by
  have hk : numChunks nSamples chunkSamples = nSamples ⌈/⌉ chunkSamples := by
    rw [numChunks_pos_eq nSamples chunkSamples hn hc, Nat.ceilDiv_eq_add_pred_div]
  have hk1 : 1 ≤ nSamples ⌈/⌉ chunkSamples := by
    by_contra h
    have h0 : nSamples ⌈/⌉ chunkSamples ≤ 0 := by omega
    have := (ceilDiv_le_iff_le_mul hc).mp h0
    omega
  rw [hk]
  refine ⟨?_, (ceilDiv_le_iff_le_mul hc).mp le_rfl⟩
  by_contra h
  push_neg at h
  have := (ceilDiv_le_iff_le_mul hc).mpr h
  omega

lemma one_le_numChunks (nSamples chunkSamples : Nat) :
    1 ≤ numChunks nSamples chunkSamples := le_max_left _ _

/-- **C3.** The chunked transcriber splits the buffer into
`ceil(length / window)` consecutive fixed-duration windows where only the
last may be shorter, and every returned segment's absolute start time is the
window's start offset plus the segment's window-relative start.  Conjuncts:
(1) for nonempty buffers the window count is the ceiling
`(n + cs - 1) / cs`, every non-final window is exactly
`[i*cs, (i+1)*cs)` (length `cs`), the final window is
`[(k-1)*cs, n)` (length at most `cs`), and windows are consecutive;
(2) the assembled transcript holds exactly the segments
`(i*cs/rate + s, text)` for a window `i` and a window-relative segment
`(s, text)` returned by the recognizer for that window; (3) a 700-second
buffer with a 300-second window (at 16 kHz) yields exactly three windows of
300, 300, and 100 seconds. -/
theorem transcribe_meeting_windows :
    (∀ n cs : Nat, 0 < n → 0 < cs →
      numChunks n cs = (n + cs - 1) / cs
      ∧ (∀ i, i + 1 < numChunks n cs → chunkBounds n cs i = (i * cs, (i + 1) * cs))
      ∧ chunkBounds n cs (numChunks n cs - 1) = ((numChunks n cs - 1) * cs, n)
      ∧ n - (numChunks n cs - 1) * cs ≤ cs
      ∧ (∀ i, i + 1 < numChunks n cs →
          (chunkBounds n cs (i + 1)).1 = (chunkBounds n cs i).2))
    ∧ (∀ (n cs : Nat) (rate : ℚ) (recognize : Nat → List (ℚ × String)) (p : ℚ × String),
        p ∈ transcribeAbs n cs rate recognize ↔
          ∃ i < numChunks n cs, ∃ s : ℚ,
            (s, p.2) ∈ recognize i ∧ p.1 = ((i * cs : Nat) : ℚ) / rate + s)
    ∧ (numChunks (700 * 16000) (300 * 16000) = 3
      ∧ chunkBounds (700 * 16000) (300 * 16000) 0 = (0, 300 * 16000)
      ∧ chunkBounds (700 * 16000) (300 * 16000) 1 = (300 * 16000, 600 * 16000)
      ∧ chunkBounds (700 * 16000) (300 * 16000) 2 = (600 * 16000, 700 * 16000)) := by
  refine ⟨?_, ?_, by decide, by decide, by decide, by decide⟩
  · intro n cs hn hc
    obtain ⟨hlow, hhigh⟩ := numChunks_bounds n cs hn hc
    have hk1 := one_le_numChunks n cs
    have hfull : ∀ i, i + 1 < numChunks n cs → (i + 1) * cs ≤ n := by
      intro i hi
      have h1 : (i + 1) * cs ≤ (numChunks n cs - 1) * cs :=
        Nat.mul_le_mul_right cs (by omega)
      have h2 : (numChunks n cs - 1) * cs < n := by
        rw [Nat.mul_comm] at hlow
        exact hlow
      omega
    refine ⟨numChunks_pos_eq n cs hn hc, ?_, ?_, ?_, ?_⟩
    · intro i hi
      simp only [chunkBounds, Prod.mk.injEq, true_and]
      exact Nat.min_eq_left (hfull i hi)
    · simp only [chunkBounds, Prod.mk.injEq, true_and]
      have : (numChunks n cs - 1 + 1) * cs = numChunks n cs * cs := by
        congr 1
        omega
      rw [this]
      refine Nat.min_eq_right ?_
      rw [Nat.mul_comm] at hhigh
      exact hhigh
    · have h2 : (numChunks n cs - 1) * cs < n := by
        rw [Nat.mul_comm] at hlow
        exact hlow
      have h3 : n ≤ numChunks n cs * cs := by
        rw [Nat.mul_comm] at hhigh
        exact hhigh
      have : numChunks n cs * cs = (numChunks n cs - 1) * cs + cs := by
        have : numChunks n cs = (numChunks n cs - 1) + 1 := by omega
        rw [this, Nat.add_mul, Nat.one_mul]
        congr 1
      omega
    · intro i hi
      have hbi := hfull i hi
      simp only [chunkBounds]
      exact (Nat.min_eq_left hbi).symm
  · intro n cs rate recognize p
    simp only [transcribeAbs, List.mem_flatMap, List.mem_map, List.mem_range]
    constructor
    · rintro ⟨i, hi, ⟨s, t⟩, hmem, heq⟩
      refine ⟨i, hi, s, ?_, ?_⟩
      · have h2 : t = p.2 := by
          have := congrArg Prod.snd heq
          simpa using this
        rw [← h2]
        exact hmem
      · have := congrArg Prod.fst heq
        simpa using this.symm
    · rintro ⟨i, hi, s, hmem, heq⟩
      refine ⟨i, hi, (s, p.2), hmem, ?_⟩
      exact Prod.ext_iff.mpr ⟨heq.symm, rfl⟩

/-- Witness for `transcribe_meeting_windows`: a 7-sample buffer with a
3-sample window has ceil(7/3) = 3 windows. -/
theorem transcribe_meeting_windows_witness :
    numChunks 7 3 = (7 + 3 - 1) / 3 :=
  (transcribe_meeting_windows.1 7 3 (by decide) (by decide)).1

/-! ### `generate_summary` / `_incremental_summary` (visionflow/meeting_processor.py)

The transcript is represented by its whitespace-split word list
(`transcription.split()`); the generation collaborator is an oracle
`gen : String → Option String` mapping the full request prompt to
`some response` (already `.strip()`ed) on HTTP success and `none` when the
request raises (connection error, HTTP error status, or any other
exception); the error paths of `_ollama_summarize` both return `""`.
Request counts are made observable by returning
`(result, summarize requests, meta requests)`. -/

/-- `f"{prompt}\n\nTranscrição da reunião:\n\n{text}"`. -/
def summaryRequestText (summaryPrompt text : String) : String :=
  summaryPrompt ++ "\n\nTranscrição da reunião:\n\n" ++ text

/-- `_ollama_summarize`: exactly one generation request. -/
def ollama_summarize (gen : String → Option String) (summaryPrompt text : String) : String :=
  match gen (summaryRequestText summaryPrompt text) with
  | some s => s
  | none => ""

/-- `block_size = 2500`. -/
def blockSize : Nat := 2500

/-- `SUMMARY_WORD_LIMIT = 3000`. -/
def summaryWordLimit : Nat := 3000

/-- The word blocks of `for i in range(0, len(words), block_size)`:
`ceil(len(words)/block_size)` slices of at most `block_size` words. -/
def wordBlocks (words : List String) : List (List String) :=
  (List.range ((words.length + blockSize - 1) / blockSize)).map
    fun i => (words.drop (i * blockSize)).take blockSize

/-- The block texts `" ".join(words[i:i + block_size])`. -/
def blockTexts (words : List String) : List String :=
  (wordBlocks words).map (String.intercalate " ")

/-- The accumulated `partial_summaries`: each block is summarized once and,
when the (stripped) response is nonempty, recorded as
`f"## Parte {idx+1}\n\n{summary}"`. -/
def partial_summaries (gen : String → Option String) (summaryPrompt : String)
    (words : List String) : List String :=
  (blockTexts words).enum.filterMap fun ib =>
    if ollama_summarize gen summaryPrompt ib.2 = "" then none
    else some ("## Parte " ++ toString (ib.1 + 1) ++ "\n\n"
      ++ ollama_summarize gen summaryPrompt ib.2)

/-- The fixed meta-summary instruction text. -/
def metaPromptText : String :=
  "Você recebeu resumos parciais de uma reunião longa. Combine-os em um resumo único e coerente, mantendo o formato:\n1. RESUMO\n2. DECISÕES\n3. ACTION ITEMS\n4. TÓPICOS\nElimine redundâncias e organize cronologicamente."

/-- `combined = "\n\n---\n\n".join(partial_summaries)`. -/
def combinedOf (partials : List String) : String :=
  String.intercalate "\n\n---\n\n" partials

/-- `f"{meta_prompt}\n\nResumos parciais:\n\n{combined}"`. -/
def metaRequestText (partials : List String) : String :=
  metaPromptText ++ "\n\nResumos parciais:\n\n" ++ combinedOf partials

/-- `_incremental_summary`: summarize every block (one request each), then
return `""` if nothing succeeded, the single partial if only one did,
otherwise issue one meta-summary request, falling back to the concatenation
if that request raises. -/
def incremental_summary (gen : String → Option String) (summaryPrompt : String)
    (words : List String) : String × Nat × Nat :=
  if partial_summaries gen summaryPrompt words = [] then
    ("", (wordBlocks words).length, 0)
  else if (partial_summaries gen summaryPrompt words).length = 1 then
    ((partial_summaries gen summaryPrompt words).headD "", (wordBlocks words).length, 0)
  else
    match gen (metaRequestText (partial_summaries gen summaryPrompt words)) with
    | some s => (s, (wordBlocks words).length, 1)
    | none =>
        (combinedOf (partial_summaries gen summaryPrompt words), (wordBlocks words).length, 1)

/-- `generate_summary`: one request when the word count is at or below the
3000-word limit, otherwise the incremental strategy. -/
def generate_summary (gen : String → Option String) (summaryPrompt : String)
    (words : List String) : String × Nat × Nat :=
  if words.length ≤ summaryWordLimit then
    (ollama_summarize gen summaryPrompt (String.intercalate " " words), 1, 0)
  else incremental_summary gen summaryPrompt words

lemma length_filterMap_of_isSome {α β : Type} (f : α → Option β) (l : List α)
    (h : ∀ a ∈ l, (f a).isSome) : (l.filterMap f).length = l.length := by
  induction l with
  | nil => simp
  | cons a l ih =>
      have ha := h a (List.mem_cons_self _ _)
      obtain ⟨b, hb⟩ := Option.isSome_iff_exists.mp ha
      rw [List.filterMap_cons, hb]
      simp only [List.length_cons]
      rw [ih (fun x hx => h x (List.mem_cons_of_mem _ hx))]

lemma length_enumFrom_eq {α : Type} : ∀ (l : List α) (n : Nat),
    (l.enumFrom n).length = l.length
  | [], _ => rfl
  | _ :: xs, n => by simp [List.enumFrom_cons, length_enumFrom_eq xs (n + 1)]

lemma snd_mem_of_mem_enumFrom {α : Type} : ∀ (l : List α) (n : Nat) (ib : Nat × α),
    ib ∈ l.enumFrom n → ib.2 ∈ l := by
  intro l
  induction l with
  | nil => intro n ib h; simp at h
  | cons x xs ih =>
      intro n ib h
      rw [List.enumFrom_cons] at h
      rcases List.mem_cons.mp h with h | h
      · subst h
        exact List.mem_cons_self _ _
      · exact List.mem_cons_of_mem _ (ih (n + 1) ib h)

lemma partial_summaries_length_of_success (gen : String → Option String)
    (summaryPrompt : String) (words : List String)
    (hgen : ∀ b ∈ blockTexts words, ollama_summarize gen summaryPrompt b ≠ "") :
    (partial_summaries gen summaryPrompt words).length = (wordBlocks words).length := by
  unfold partial_summaries
  rw [length_filterMap_of_isSome]
  · rw [List.enum, length_enumFrom_eq]
    simp [blockTexts]
  · intro ib hib
    have hmem : ib.2 ∈ blockTexts words :=
      snd_mem_of_mem_enumFrom _ _ _ (by rw [List.enum] at hib; exact hib)
    rw [if_neg (hgen ib.2 hmem)]
    rfl

/-- **C4.** Request counts of the summary synthesizer: for any transcript of
at most 3000 words, exactly one generation request and no meta request are
issued; a 6000-word transcript is split into ceil(6000/2500) = 3 blocks of
2500, 2500, and 1000 words, and (with the generation collaborator returning
nonempty summaries) exactly 3 block summarization requests plus exactly one
meta-summary request are issued. -/
theorem generate_summary_request_counts :
    (∀ (gen : String → Option String) (sp : String) (words : List String),
      words.length ≤ 3000 → (generate_summary gen sp words).2 = (1, 0))
    ∧ (∀ (gen : String → Option String) (sp : String) (words : List String),
        words.length = 6000 →
        (∀ t : String, ∃ r : String, gen t = some r ∧ r ≠ "") →
        (wordBlocks words).length = 3
        ∧ (wordBlocks words).map List.length = [2500, 2500, 1000]
        ∧ (generate_summary gen sp words).2 = (3, 1)) := by
  constructor
  · intro gen sp words hlen
    rw [generate_summary, if_pos (by simpa [summaryWordLimit] using hlen)]
  · intro gen sp words hlen hgen
    have hwb3 : (wordBlocks words).length = 3 := by
      simp [wordBlocks, blockSize, hlen]
    have hmap : (wordBlocks words).map List.length = [2500, 2500, 1000] := by
      rw [wordBlocks, blockSize]
      rw [hlen]
      norm_num [List.range_succ, hlen]
    refine ⟨hwb3, hmap, ?_⟩
    rw [generate_summary, if_neg (by simp [summaryWordLimit, hlen])]
    have hb : ∀ b ∈ blockTexts words, ollama_summarize gen sp b ≠ "" := by
      intro b _
      obtain ⟨r, hr, hrne⟩ := hgen (summaryRequestText sp b)
      rw [ollama_summarize, hr]
      exact hrne
    have hlenp : (partial_summaries gen sp words).length = 3 := by
      rw [partial_summaries_length_of_success gen sp words hb, hwb3]
    have hnil : ¬ (partial_summaries gen sp words = []) := by
      intro h
      rw [h] at hlenp
      simp at hlenp
    have hone : ¬ ((partial_summaries gen sp words).length = 1) := by omega
    rw [incremental_summary, if_neg hnil, if_neg hone]
    cases hg : gen (metaRequestText (partial_summaries gen sp words)) with
    | some s => simp [hwb3]
    | none => simp [hwb3]

/-- Witness for `generate_summary_request_counts`: a concrete 6000-word
transcript and an always-succeeding collaborator. -/
theorem generate_summary_request_counts_witness :
    (wordBlocks (List.replicate 6000 "w")).length = 3
    ∧ (wordBlocks (List.replicate 6000 "w")).map List.length = [2500, 2500, 1000]
    ∧ (generate_summary (fun _ => some "ok") "P" (List.replicate 6000 "w")).2 = (3, 1) :=
  generate_summary_request_counts.2 (fun _ => some "ok") "P" (List.replicate 6000 "w")
    (List.length_replicate 6000 "w") (fun t => ⟨"ok", rfl, by decide⟩)

lemma le_length_intercalate_go : ∀ (l : List String) (acc sep : String),
    acc.length ≤ (String.intercalate.go acc sep l).length := by
  intro l
  induction l with
  | nil => intro acc sep; exact le_refl _
  | cons a as ih =>
      intro acc sep
      have h1 : acc.length ≤ (acc ++ sep ++ a).length := by
        simp [String.length_append]
        omega
      exact le_trans h1 (ih (acc ++ sep ++ a) sep)

lemma combinedOf_cons_ne_empty (p : String) (rest : List String) (hp : 0 < p.length) :
    combinedOf (p :: rest) ≠ "" := by
  intro h
  have h1 : p.length ≤ (combinedOf (p :: rest)).length :=
    le_length_intercalate_go rest p _
  rw [h] at h1
  simp at h1
  omega

lemma partial_summaries_shape (gen : String → Option String) (sp : String)
    (words : List String) :
    ∀ x ∈ partial_summaries gen sp words, 9 ≤ x.length := by
  intro x hx
  rw [partial_summaries, List.mem_filterMap] at hx
  obtain ⟨ib, _, hib⟩ := hx
  by_cases h : ollama_summarize gen sp ib.2 = ""
  · rw [if_pos h] at hib
    exact absurd hib (by simp)
  · rw [if_neg h] at hib
    have hx' : x = "## Parte " ++ toString (ib.1 + 1) ++ "\n\n"
        ++ ollama_summarize gen sp ib.2 := by
      have := Option.some.inj hib
      exact this.symm
    rw [hx']
    have h9 : ("## Parte " : String).length = 9 := rfl
    simp [String.length_append]
    omega

/-- **C8.** Whenever the incremental summarizer has produced more than one
partial block summary and the meta-summary request fails (any exception,
modelled by the oracle returning `none`), `_incremental_summary` returns the
(`"\n\n---\n\n"`-joined) concatenation of the partial block summaries, which
is a nonempty string. -/
theorem incremental_summary_meta_fallback :
    ∀ (gen : String → Option String) (sp : String) (words : List String),
      2 ≤ (partial_summaries gen sp words).length →
      gen (metaRequestText (partial_summaries gen sp words)) = none →
      (incremental_summary gen sp words).1 = combinedOf (partial_summaries gen sp words)
      ∧ (incremental_summary gen sp words).1 ≠ "" := by
  intro gen sp words hlen hmeta
  have hnil : ¬ (partial_summaries gen sp words = []) := by
    intro h
    rw [h] at hlen
    simp at hlen
  have hone : ¬ ((partial_summaries gen sp words).length = 1) := by omega
  have hres : (incremental_summary gen sp words).1
      = combinedOf (partial_summaries gen sp words) := by
    rw [incremental_summary, if_neg hnil, if_neg hone, hmeta]
  refine ⟨hres, ?_⟩
  rw [hres]
  cases hps : partial_summaries gen sp words with
  | nil => exact absurd hps hnil
  | cons p rest =>
      have hp : 9 ≤ p.length :=
        partial_summaries_shape gen sp words p (by rw [hps]; exact List.mem_cons_self _ _)
      exact combinedOf_cons_ne_empty p rest (by omega)

lemma headD_data_append_left (s t : String) (d : Char) (hs : s.data ≠ []) :
    ((s ++ t).data).headD d = s.data.headD d := by
  rw [String.data_append]
  cases hsd : s.data with
  | nil => exact absurd hsd hs
  | cons c cs => simp

/-- Witness for `incremental_summary_meta_fallback`: a 2501-word transcript
(two blocks) with a collaborator that answers block requests but fails the
meta request (which is the only request whose prompt starts with `'V'`). -/
theorem incremental_summary_meta_fallback_witness :
    (incremental_summary
        (fun t => if t.data.headD ' ' = 'V' then none else some "x")
        "Faça um resumo" (List.replicate 2501 "w")).1
      = combinedOf (partial_summaries
          (fun t => if t.data.headD ' ' = 'V' then none else some "x")
          "Faça um resumo" (List.replicate 2501 "w"))
    ∧ (incremental_summary
        (fun t => if t.data.headD ' ' = 'V' then none else some "x")
        "Faça um resumo" (List.replicate 2501 "w")).1 ≠ "" :=
  incremental_summary_meta_fallback
    (fun t => if t.data.headD ' ' = 'V' then none else some "x")
    "Faça um resumo" (List.replicate 2501 "w")
    (by
      have hb : ∀ b ∈ blockTexts (List.replicate 2501 "w"),
          ollama_summarize (fun t => if t.data.headD ' ' = 'V' then none else some "x")
            "Faça um resumo" b ≠ "" := by
        intro b _
        rw [ollama_summarize]
        have hhead : ((summaryRequestText "Faça um resumo" b).data).headD ' ' = 'F' := by
          rw [summaryRequestText, headD_data_append_left _ _ _ (by decide)]
          decide
        rw [hhead]
        simp
      rw [partial_summaries_length_of_success _ _ _ hb]
      simp [wordBlocks, blockSize])
    (by
      have hhead : ∀ P : List String, ((metaRequestText P).data).headD ' ' = 'V' := by
        intro P
        rw [metaRequestText, headD_data_append_left _ _ _ (by decide)]
        decide
      beta_reduce
      rw [hhead]
      simp)

/-! ### `LocalWhisprApp` session state machine (localwhispr/server.py)

The mutable fields `_recording`, `_processing`, `_mode`, and the presence of
`_dual_recorder` / `_meeting_recorder` become an explicit state record.
Capture and collaborator outcomes live in an environment record: the byte
lengths returned by `stop()`, whether a meeting config is present, whether
`MeetingRecorder.start()` succeeds, and whether `stop()` returned files.
Each toggle returns `(response, new state, pipeline started)`; the
recognition collaborator is only ever invoked from a started pipeline
thread, so `pipeline started = false` means recognition is never invoked. -/

structure AppState where
  recording : Bool
  processing : Bool
  mode : String
  dualRec : Bool
  meetingRec : Bool
deriving DecidableEq, Repr

/-- Outcomes of the capture collaborators for one toggle. -/
structure CaptureEnv where
  /-- `len(mic_bytes)` from `DualRecorder.stop()`. -/
  micLen : Nat
  /-- `len(monitor_bytes)` from `DualRecorder.stop()`. -/
  monLen : Nat
  /-- `len(wav_bytes)` from `AudioRecorder.stop()`. -/
  wavLen : Nat
  /-- whether `meeting_config` was passed to the app. -/
  meetingConfigPresent : Bool
  /-- whether `MeetingRecorder.start()` returns (rather than raising). -/
  meetingStartOk : Bool
  /-- `MeetingRecorder.start()` error text when it raises. -/
  meetingErr : String
  /-- whether `MeetingRecorder.stop()` returned files. -/
  meetingFiles : Bool
deriving Repr

/-- `_stop_and_process_dictation`: stop the recorder(s), discard captures
below the 1000-byte minimum, otherwise mark processing and spawn the
pipeline thread. -/
def stop_and_process_dictation (env : CaptureEnv) (s : AppState) :
    String × AppState × Bool :=
  if s.dualRec then
    if env.micLen < 1000 ∧ env.monLen < 1000 then
      ("OK too_short",
        { s with dualRec := false, recording := false, mode := "" }, false)
    else
      ("OK processing",
        { s with dualRec := false, recording := false, processing := true }, true)
  else
    if env.wavLen < 1000 then
      ("OK too_short", { s with recording := false, mode := "" }, false)
    else
      ("OK processing", { s with recording := false, processing := true }, true)

/-- `toggle_dictation`. -/
def toggle_dictation (captureMonitor : Bool) (env : CaptureEnv) (s : AppState) :
    String × AppState × Bool :=
  if s.processing then ("BUSY processando", s, false)
  else if s.recording ∧ s.mode = "dictate" then stop_and_process_dictation env s
  else if ¬ s.recording then
    ("OK recording",
      { s with mode := "dictate", recording := true, dualRec := captureMonitor }, false)
  else ("BUSY modo=" ++ s.mode, s, false)

/-- `_stop_and_process_screenshot`. -/
def stop_and_process_screenshot (env : CaptureEnv) (s : AppState) :
    String × AppState × Bool :=
  if env.wavLen < 1000 then
    ("OK too_short", { s with recording := false, mode := "" }, false)
  else
    ("OK processing", { s with recording := false, processing := true }, true)

/-- `toggle_screenshot`. -/
def toggle_screenshot (env : CaptureEnv) (s : AppState) : String × AppState × Bool :=
  if s.processing then ("BUSY processando", s, false)
  else if s.recording ∧ s.mode = "screenshot" then stop_and_process_screenshot env s
  else if ¬ s.recording then
    ("OK recording", { s with mode := "screenshot", recording := true }, false)
  else ("BUSY modo=" ++ s.mode, s, false)

/-- `_start_meeting`: fails without a meeting config; the recorder object is
assigned before `start()` is called, so a failed `start()` leaves a stale
(non-recording) recorder but no other state change. -/
def start_meeting (env : CaptureEnv) (s : AppState) : String × AppState × Bool :=
  if ¬ env.meetingConfigPresent then ("ERR meeting_config ausente", s, false)
  else if ¬ env.meetingStartOk then
    ("ERR " ++ env.meetingErr, { s with meetingRec := true }, false)
  else
    ("OK meeting_recording",
      { s with meetingRec := true, mode := "meeting", recording := true }, false)

/-- `_stop_and_process_meeting`. -/
def stop_and_process_meeting (env : CaptureEnv) (s : AppState) :
    String × AppState × Bool :=
  if ¬ s.meetingRec then
    ("ERR no_meeting_recorder", { s with recording := false, mode := "" }, false)
  else if ¬ env.meetingFiles then
    ("ERR meeting_no_files",
      { s with recording := false, mode := "", meetingRec := false }, false)
  else
    ("OK meeting_processing", { s with recording := false, processing := true }, true)

/-- `toggle_meeting`. -/
def toggle_meeting (env : CaptureEnv) (s : AppState) : String × AppState × Bool :=
  if s.processing then ("BUSY processando", s, false)
  else if s.recording ∧ s.mode = "meeting" then stop_and_process_meeting env s
  else if ¬ s.recording then start_meeting env s
  else ("BUSY modo=" ++ s.mode, s, false)

/-! Worker-thread pipelines.  Collaborator results are `Option`s: `none`
models the call raising (caught by the pipeline's `except Exception`
clause); every control path then runs the `finally` clause, which clears
`_processing` and `_mode` (and, for meetings, `_meeting_recorder`). -/

/-- `_process_dictation`: transcribe → (empty? early return) → cleanup/type
(may raise) → `finally`. -/
def process_dictation (s : AppState) (transcribed : Option String)
    (restRaises : Bool) : AppState :=
  match transcribed with
  | none => { s with processing := false, mode := "" }
  | some t =>
      if t = "" then { s with processing := false, mode := "" }
      else if restRaises then { s with processing := false, mode := "" }
      else { s with processing := false, mode := "" }

/-- `_process_dictation_dual`. -/
def process_dictation_dual (s : AppState)
    (micSegs monSegs : Option (List (ℚ × ℚ × String))) (restRaises : Bool) : AppState :=
  match micSegs, monSegs with
  | none, _ => { s with processing := false, mode := "" }
  | _, none => { s with processing := false, mode := "" }
  | some ms, some qs =>
      if ms = [] ∧ qs = [] then { s with processing := false, mode := "" }
      else if restRaises then { s with processing := false, mode := "" }
      else { s with processing := false, mode := "" }

/-- `_process_screenshot`. -/
def process_screenshot (s : AppState) (commandText : Option String)
    (execResult : Option String) : AppState :=
  match commandText with
  | none => { s with processing := false, mode := "" }
  | some t =>
      if t = "" then { s with processing := false, mode := "" }
      else
        match execResult with
        | none => { s with processing := false, mode := "" }
        | some _ => { s with processing := false, mode := "" }

/-- `_process_meeting`: its `finally` also drops the recorder object. -/
def process_meeting (s : AppState) (results : Option Bool) : AppState :=
  match results with
  | none => { s with processing := false, mode := "", meetingRec := false }
  | some _ => { s with processing := false, mode := "", meetingRec := false }

/-- **C6.** Every pipeline run — dictation, dual dictation, screenshot, or
meeting — ends with the session back in idle whether it completes normally,
returns early, or raises anywhere: the `finally` clause clears the
processing flag and resets the mode on every control path. -/
theorem pipelines_always_return_idle :
    (∀ (s : AppState) (tr : Option String) (r : Bool),
      (process_dictation s tr r).processing = false
      ∧ (process_dictation s tr r).mode = "")
    ∧ (∀ (s : AppState) (ms qs : Option (List (ℚ × ℚ × String))) (r : Bool),
      (process_dictation_dual s ms qs r).processing = false
      ∧ (process_dictation_dual s ms qs r).mode = "")
    ∧ (∀ (s : AppState) (tr er : Option String),
      (process_screenshot s tr er).processing = false
      ∧ (process_screenshot s tr er).mode = "")
    ∧ (∀ (s : AppState) (res : Option Bool),
      (process_meeting s res).processing = false
      ∧ (process_meeting s res).mode = ""
      ∧ (process_meeting s res).meetingRec = false) := by
  refine ⟨?_, ?_, ?_, ?_⟩
  · intro s tr r
    cases tr with
    | none => exact ⟨rfl, rfl⟩
    | some t =>
        by_cases ht : t = "" <;> cases r <;>
          simp [process_dictation, ht]
  · intro s ms qs r
    cases ms with
    | none => cases qs with
      | none => exact ⟨rfl, rfl⟩
      | some q => exact ⟨rfl, rfl⟩
    | some m =>
        cases qs with
        | none => exact ⟨rfl, rfl⟩
        | some q =>
            by_cases h : m = [] ∧ q = [] <;> cases r <;>
              simp [process_dictation_dual, h]
  · intro s tr er
    cases tr with
    | none => exact ⟨rfl, rfl⟩
    | some t =>
        by_cases ht : t = "" <;> cases er <;>
          simp [process_screenshot, ht]
  · intro s res
    cases res with
    | none => exact ⟨rfl, rfl, rfl⟩
    | some b => exact ⟨rfl, rfl, rfl⟩

/-- **C5.** The toggle transition table: (1) toggling a mode while idle
starts capture and moves to `recording(mode)` (for meetings, provided a
config is present and the recorder starts); (2) toggling the same mode
while `recording(mode)` stops capture and moves to `processing(mode)`
(provided the capture clears the 1000-byte minimum — C9 covers the short
case — and, for meetings, the recorder produced files); (3) toggling any
mode while recording a different mode is rejected with a busy response and
the state is returned unchanged; (4) toggling any mode while processing is
rejected with a busy response and the state is returned unchanged. -/
theorem toggle_transition_table :
    (∀ (cm : Bool) (env : CaptureEnv) (s : AppState),
      s.recording = false → s.processing = false →
      toggle_dictation cm env s
        = ("OK recording",
            { s with mode := "dictate", recording := true, dualRec := cm }, false))
    ∧ (∀ (env : CaptureEnv) (s : AppState),
      s.recording = false → s.processing = false →
      toggle_screenshot env s
        = ("OK recording", { s with mode := "screenshot", recording := true }, false))
    ∧ (∀ (env : CaptureEnv) (s : AppState),
      s.recording = false → s.processing = false →
      env.meetingConfigPresent = true → env.meetingStartOk = true →
      toggle_meeting env s
        = ("OK meeting_recording",
            { s with meetingRec := true, mode := "meeting", recording := true }, false))
    ∧ (∀ (cm : Bool) (env : CaptureEnv) (s : AppState),
      s.recording = true → s.processing = false → s.mode = "dictate" →
      (s.dualRec = true → ¬ (env.micLen < 1000 ∧ env.monLen < 1000)) →
      (s.dualRec = false → 1000 ≤ env.wavLen) →
      (toggle_dictation cm env s).1 = "OK processing"
      ∧ ((toggle_dictation cm env s).2.1).recording = false
      ∧ ((toggle_dictation cm env s).2.1).processing = true
      ∧ ((toggle_dictation cm env s).2.1).mode = "dictate"
      ∧ (toggle_dictation cm env s).2.2 = true)
    ∧ (∀ (env : CaptureEnv) (s : AppState),
      s.recording = true → s.processing = false → s.mode = "screenshot" →
      1000 ≤ env.wavLen →
      toggle_screenshot env s
        = ("OK processing",
            { s with recording := false, processing := true }, true))
    ∧ (∀ (env : CaptureEnv) (s : AppState),
      s.recording = true → s.processing = false → s.mode = "meeting" →
      s.meetingRec = true → env.meetingFiles = true →
      toggle_meeting env s
        = ("OK meeting_processing",
            { s with recording := false, processing := true }, true))
    ∧ (∀ (cm : Bool) (env : CaptureEnv) (s : AppState),
      s.recording = true → s.processing = false → s.mode ≠ "dictate" →
      toggle_dictation cm env s = ("BUSY modo=" ++ s.mode, s, false))
    ∧ (∀ (env : CaptureEnv) (s : AppState),
      s.recording = true → s.processing = false → s.mode ≠ "screenshot" →
      toggle_screenshot env s = ("BUSY modo=" ++ s.mode, s, false))
    ∧ (∀ (env : CaptureEnv) (s : AppState),
      s.recording = true → s.processing = false → s.mode ≠ "meeting" →
      toggle_meeting env s = ("BUSY modo=" ++ s.mode, s, false))
    ∧ (∀ (cm : Bool) (env : CaptureEnv) (s : AppState), s.processing = true →
      toggle_dictation cm env s = ("BUSY processando", s, false)
      ∧ toggle_screenshot env s = ("BUSY processando", s, false)
      ∧ toggle_meeting env s = ("BUSY processando", s, false)) := by
  refine ⟨?_, ?_, ?_, ?_, ?_, ?_, ?_, ?_, ?_, ?_⟩
  · intro cm env s hr hp
    simp [toggle_dictation, hr, hp]
  · intro env s hr hp
    simp [toggle_screenshot, hr, hp]
  · intro env s hr hp hc hok
    simp [toggle_meeting, hr, hp, start_meeting, hc, hok]
  · intro cm env s hr hp hm hdual hsingle
    cases hd : s.dualRec with
    | true =>
        have hlong := hdual hd
        simp [toggle_dictation, hr, hp, hm, stop_and_process_dictation, hd, hlong]
    | false =>
        have hlong := hsingle hd
        simp [toggle_dictation, hr, hp, hm, stop_and_process_dictation, hd,
          Nat.not_lt_of_le hlong]
  · intro env s hr hp hm hlong
    simp [toggle_screenshot, hr, hp, hm, stop_and_process_screenshot]
    omega
  · intro env s hr hp hm hrec hfiles
    simp [toggle_meeting, hr, hp, hm, stop_and_process_meeting, hrec, hfiles]
  · intro cm env s hr hp hm
    simp [toggle_dictation, hr, hp, hm]
  · intro env s hr hp hm
    simp [toggle_screenshot, hr, hp, hm]
  · intro env s hr hp hm
    simp [toggle_meeting, hr, hp, hm]
  · intro cm env s hp
    refine ⟨?_, ?_, ?_⟩ <;> simp [toggle_dictation, toggle_screenshot, toggle_meeting, hp]

/-- Witness for `toggle_transition_table`: a `meeting` toggle issued while
recording a dictation is rejected and the state is unchanged. -/
theorem toggle_transition_table_witness :
    toggle_meeting ⟨2000, 2000, 2000, true, true, "e", true⟩
        ⟨true, false, "dictate", false, false⟩
      = ("BUSY modo=" ++ "dictate", ⟨true, false, "dictate", false, false⟩, false) :=
  toggle_transition_table.2.2.2.2.2.2.2.2.1
    ⟨2000, 2000, 2000, true, true, "e", true⟩
    ⟨true, false, "dictate", false, false⟩ rfl rfl (by decide)

/-- **C9.** A captured buffer shorter than the fixed 1000-byte minimum is
discarded when the recording stops: the pipeline thread is never started
(third component `false`), so the recognition collaborator is never
invoked, and the session goes straight back to idle — recording flag
cleared, mode cleared, and the processing flag never set. -/
theorem short_capture_skips_recognition :
    (∀ (cm : Bool) (env : CaptureEnv) (s : AppState),
      s.recording = true → s.processing = false → s.mode = "dictate" →
      s.dualRec = false → env.wavLen < 1000 →
      toggle_dictation cm env s
        = ("OK too_short", { s with recording := false, mode := "" }, false)
      ∧ ((toggle_dictation cm env s).2.1).processing = false)
    ∧ (∀ (cm : Bool) (env : CaptureEnv) (s : AppState),
      s.recording = true → s.processing = false → s.mode = "dictate" →
      s.dualRec = true → env.micLen < 1000 → env.monLen < 1000 →
      toggle_dictation cm env s
        = ("OK too_short",
            { s with dualRec := false, recording := false, mode := "" }, false)
      ∧ ((toggle_dictation cm env s).2.1).processing = false)
    ∧ (∀ (env : CaptureEnv) (s : AppState),
      s.recording = true → s.processing = false → s.mode = "screenshot" →
      env.wavLen < 1000 →
      toggle_screenshot env s
        = ("OK too_short", { s with recording := false, mode := "" }, false)
      ∧ ((toggle_screenshot env s).2.1).processing = false) := by
  refine ⟨?_, ?_, ?_⟩
  · intro cm env s hr hp hm hd hshort
    have h : toggle_dictation cm env s
        = ("OK too_short", { s with recording := false, mode := "" }, false) := by
      simp [toggle_dictation, hr, hp, hm, stop_and_process_dictation, hd, hshort]
    exact ⟨h, by rw [h]; exact hp⟩
  · intro cm env s hr hp hm hd hmic hmon
    have h : toggle_dictation cm env s
        = ("OK too_short",
            { s with dualRec := false, recording := false, mode := "" }, false) := by
      simp [toggle_dictation, hr, hp, hm, stop_and_process_dictation, hd, hmic, hmon]
    exact ⟨h, by rw [h]; exact hp⟩
  · intro env s hr hp hm hshort
    have h : toggle_screenshot env s
        = ("OK too_short", { s with recording := false, mode := "" }, false) := by
      simp [toggle_screenshot, hr, hp, hm, stop_and_process_screenshot, hshort]
    exact ⟨h, by rw [h]; exact hp⟩

/-- Witness for `short_capture_skips_recognition`: a 10-byte dictation
capture is dropped, no pipeline starts, and the session is idle again. -/
theorem short_capture_skips_recognition_witness :
    toggle_dictation false ⟨10, 10, 10, true, true, "e", true⟩
        ⟨true, false, "dictate", false, false⟩
      = ("OK too_short", ⟨false, false, "", false, false⟩, false)
    ∧ ((toggle_dictation false ⟨10, 10, 10, true, true, "e", true⟩
        ⟨true, false, "dictate", false, false⟩).2.1).processing = false :=
  short_capture_skips_recognition.1 false ⟨10, 10, 10, true, true, "e", true⟩
    ⟨true, false, "dictate", false, false⟩ rfl rfl rfl rfl (by decide)

/-! ### `WavTailMonitor._to_perceptual` / `_compute_rms` (localwhispr/audio_monitor.py)

Floating-point arithmetic is idealised over `ℝ`: `math.log10 x` becomes
`Real.logb 10 x`, `np.sqrt` becomes `Real.sqrt`, and the constants
`_DB_FLOOR = -45.0`, `_DB_CEIL = -5.0`, `1e-7`, `32768.0` keep their
values. -/

/-- `_DB_FLOOR`. -/
def dbFloor : ℝ := -45

/-- `_DB_CEIL`. -/
def dbCeil : ℝ := -5

/-- `_to_perceptual`: `0` below `1e-7`, otherwise the dB value normalised
between floor and ceiling and clamped to `[0, 1]`
(`max(0.0, min(1.0, normalised))`). -/
noncomputable def to_perceptual (rms : ℝ) : ℝ :=
  if rms < 1 / 10 ^ 7 then 0
  else max 0 (min 1 ((20 * Real.logb 10 rms - dbFloor) / (dbCeil - dbFloor)))

/-- The sample-level RMS of `_compute_rms`: root of the mean square of the
(mono, widened) samples, normalised by `32768.0` and capped at `1.0`. -/
noncomputable def compute_rms_samples (samples : List ℤ) : ℝ :=
  min (Real.sqrt ((samples.map fun v => (Int.cast v : ℝ) ^ 2).sum / samples.length) / 32768) 1

lemma to_perceptual_nonneg (r : ℝ) : 0 ≤ to_perceptual r := by
  rw [to_perceptual]
  split
  · exact le_refl 0
  · exact le_max_left 0 _

lemma to_perceptual_le_one (r : ℝ) : to_perceptual r ≤ 1 := by
  rw [to_perceptual]
  split
  · exact zero_le_one
  · exact max_le zero_le_one (min_le_left 1 _)

lemma logb_ten_small : Real.logb 10 (1 / 10 ^ 7 : ℝ) = -7 := by
  rw [one_div, Real.logb_inv]
  rw [show ((10 : ℝ) ^ 7) = (10 : ℝ) ^ (7 : ℕ) from rfl, Real.logb_pow]
  rw [Real.logb_self_eq_one (by norm_num)]
  norm_num

/-- **C7.** The RMS-to-perceptual-level mapping: always in `[0, 1]`,
monotonically non-decreasing in the raw RMS amplitude, zero at RMS `0` and
whenever the dB value is below the fixed floor, one whenever the dB value
is at or above the fixed ceiling; and the RMS of all-zero samples is `0`,
which maps to level `0`. -/
theorem to_perceptual_spec :
    (∀ r : ℝ, 0 ≤ to_perceptual r ∧ to_perceptual r ≤ 1)
    ∧ to_perceptual 0 = 0
    ∧ (∀ a b : ℝ, 0 ≤ a → a ≤ b → to_perceptual a ≤ to_perceptual b)
    ∧ (∀ r : ℝ, 0 < r → 20 * Real.logb 10 r < dbFloor → to_perceptual r = 0)
    ∧ (∀ r : ℝ, 0 < r → dbCeil ≤ 20 * Real.logb 10 r → to_perceptual r = 1)
    ∧ (∀ n : Nat, compute_rms_samples (List.replicate n 0) = 0
        ∧ to_perceptual (compute_rms_samples (List.replicate n 0)) = 0) := by
  have hz : to_perceptual 0 = 0 := by
    rw [to_perceptual, if_pos (by norm_num)]
  refine ⟨fun r => ⟨to_perceptual_nonneg r, to_perceptual_le_one r⟩, hz, ?_, ?_, ?_, ?_⟩
  · intro a b ha hab
    by_cases hae : a < 1 / 10 ^ 7
    · rw [to_perceptual, if_pos hae]
      exact to_perceptual_nonneg b
    · have hbe : ¬ b < 1 / 10 ^ 7 := by
        intro hb
        exact hae (lt_of_le_of_lt hab hb)
      have hapos : (0 : ℝ) < a := lt_of_lt_of_le (by norm_num) (not_lt.mp hae)
      rw [to_perceptual, if_neg hae, to_perceptual, if_neg hbe]
      have hlog : Real.logb 10 a ≤ Real.logb 10 b :=
        Real.logb_le_logb_of_le (by norm_num) hapos hab
      refine max_le_max (le_refl 0) (min_le_min (le_refl 1) ?_)
      have hden : (0 : ℝ) < dbCeil - dbFloor := by norm_num [dbCeil, dbFloor]
      exact (div_le_div_right hden).mpr (by linarith)
  · intro r hr hfloor
    by_cases hre : r < 1 / 10 ^ 7
    · rw [to_perceptual, if_pos hre]
    · rw [to_perceptual, if_neg hre]
      have hnum : (20 * Real.logb 10 r - dbFloor) / (dbCeil - dbFloor) < 0 := by
        apply div_neg_of_neg_of_pos
        · linarith
        · norm_num [dbCeil, dbFloor]
      have hmin : min 1 ((20 * Real.logb 10 r - dbFloor) / (dbCeil - dbFloor)) ≤ 0 :=
        le_trans (min_le_right 1 _) (le_of_lt hnum)
      exact max_eq_left hmin
  · intro r hr hceil
    have hre : ¬ r < 1 / 10 ^ 7 := by
      intro h
      have hlt : Real.logb 10 r < Real.logb 10 (1 / 10 ^ 7 : ℝ) :=
        Real.logb_lt_logb (by norm_num) hr h
      rw [logb_ten_small] at hlt
      have : 20 * Real.logb 10 r < -140 := by linarith
      rw [show dbCeil = (-5 : ℝ) from rfl] at hceil
      linarith
    rw [to_perceptual, if_neg hre]
    have hnum : (1 : ℝ) ≤ (20 * Real.logb 10 r - dbFloor) / (dbCeil - dbFloor) := by
      rw [le_div_iff (by norm_num [dbCeil, dbFloor])]
      simp only [dbCeil, dbFloor] at hceil ⊢
      linarith
    rw [min_eq_left hnum, max_eq_right zero_le_one]
  · intro n
    have hrms : compute_rms_samples (List.replicate n 0) = 0 := by
      have hmap : (List.replicate n (0 : ℤ)).map (fun v => (Int.cast v : ℝ) ^ 2)
          = List.replicate n 0 := by
        rw [List.map_replicate]
        norm_num
      rw [compute_rms_samples, hmap, List.sum_replicate]
      simp
    exact ⟨hrms, by rw [hrms, hz]⟩

/-- Witness for `to_perceptual_spec`: monotonicity instantiated at the
concrete amplitudes `0 ≤ 1`. -/
theorem to_perceptual_spec_witness : to_perceptual 0 ≤ to_perceptual 1 :=
  to_perceptual_spec.2.2.1 0 1 (le_refl 0) zero_le_one
